import Mathlib

/-!
Verification of the documentation-sync utility `sync-to-wiki.py`.

Strings are modelled as `List Char`.  Python `str.replace(old, new)`
(left-to-right, non-overlapping, replaces every occurrence) is modelled by
`replaceAll`; it is written with a fuel argument equal to the input length so
that it is structurally recursive and kernel-computable.
-/

/-- Decides whether `pat` is a prefix of `s` (Python `str.startswith`). -/
def startsWithL : List Char → List Char → Bool
  | [], _ => true
  | _ :: _, [] => false
  | p :: ps, c :: cs => if p = c then startsWithL ps cs else false

/-- Decides whether `pat` occurs as a contiguous substring of `s`. -/
def occurs (pat : List Char) : List Char → Bool
  | [] => startsWithL pat []
  | c :: cs => startsWithL pat (c :: cs) || occurs pat cs

/-- Fueled worker for `replaceAll`; fuel is the length of the input string. -/
def replaceAllGo (pat rep : List Char) : Nat → List Char → List Char
  | _, [] => []
  | 0, s => s
  | fuel + 1, c :: cs =>
    if startsWithL pat (c :: cs) then
      rep ++ replaceAllGo pat rep fuel ((c :: cs).drop pat.length)
    else c :: replaceAllGo pat rep fuel cs

/-- Python `s.replace(pat, rep)`: replace every left-to-right non-overlapping
occurrence of `pat` in `s` by `rep` (identity for an empty pattern, which the
script never uses). -/
def replaceAll (pat rep s : List Char) : List Char :=
  match pat with
  | [] => s
  | _ :: _ => replaceAllGo pat rep s.length s

/-- Characters stripped by the script's `re.sub(r'^[./]+', '', w)`. -/
def dotSlash (c : Char) : Bool := c = '.' || c = '/'

/-- Python `s.strip('-')`: remove leading and trailing dash characters. -/
def stripDashes (s : List Char) : List Char :=
  ((s.dropWhile (fun c => c = '-')).reverse.dropWhile (fun c => c = '-')).reverse

/-- Shared replacement chain `value.replace('.md', '').replace('/', '-').replace('_', '-')`
(`sync-to-wiki.py` lines 90, 231, 250, 352). -/
def navPre (p : List Char) : List Char :=
  replaceAll "_".toList "-".toList
    (replaceAll "/".toList "-".toList (replaceAll ".md".toList [] p))

/-- The Link Rewriter's Path Normalizer (`replace_link`, lines 90-96):
the shared replacement chain, then `re.sub(r'^[./]+', '', w)`, then
`w.strip('-')`, then `w.replace('-index', '')`. -/
def normalizeLink (p : List Char) : List Char :=
  replaceAll "-index".toList [] (stripDashes ((navPre p).dropWhile dotSlash))

/-- Wiki name computed by the Navigation Walker (`parse_nav_item`,
lines 231-232 and 250-251): the shared chain followed by
`wiki_name.replace('-index', '')`, with no leading-dot or dash stripping. -/
def navName (p : List Char) : List Char :=
  replaceAll "-index".toList [] (navPre p)

/-- Wiki name computed by the fallback enumeration in `main` (line 352):
only the shared replacement chain, with no `-index` removal. -/
def fallbackName (p : List Char) : List Char := navPre p

/-- Fallback page entry appended in `main` (line 354): `(wiki_name, wiki_name)`. -/
def fallbackEntry (p : List Char) : List Char × List Char :=
  (fallbackName p, fallbackName p)

/-- Modelled from the spec and claim C3's words: a normalizer that strips `.md`
and `-index` only as trailing suffixes (the other steps as in the code). Used
to compare the spec's description with the code's `normalizeLink`. -/
def stripSuffixOnce (pat s : List Char) : List Char :=
  if startsWithL pat.reverse s.reverse then (s.reverse.drop pat.length).reverse else s

/-- Modelled from the spec and claim C3's words: suffix-only normalizer. -/
def specNormalize (p : List Char) : List Char :=
  stripSuffixOnce "-index".toList
    (stripDashes
      ((replaceAll "_".toList "-".toList
          (replaceAll "/".toList "-".toList
            (stripSuffixOnce ".md".toList p))).dropWhile dotSlash))

/-- Fueled worker for Python `s.split(pat)` (used to restate `replaceAll`
through an independent mechanism: `rep.join(s.split(pat))`). -/
def splitOnGo (pat : List Char) : Nat → List Char → List (List Char)
  | _, [] => [[]]
  | 0, s => [s]
  | fuel + 1, c :: cs =>
    if startsWithL pat (c :: cs) then [] :: splitOnGo pat fuel ((c :: cs).drop pat.length)
    else
      match splitOnGo pat fuel cs with
      | [] => [[c]]
      | h :: tl => (c :: h) :: tl

/-- Python `s.split(pat)` for a non-empty pattern. -/
def splitOnL (pat s : List Char) : List (List Char) :=
  match pat with
  | [] => [s]
  | _ :: _ => splitOnGo pat s.length s

/-- Python `sep.join(parts)`. -/
def joinWith (sep : List Char) : List (List Char) → List Char
  | [] => []
  | [x] => x
  | x :: y :: rest => x ++ sep ++ joinWith sep (y :: rest)

/-- Replacement expressed as split-and-rejoin: `rep.join(s.split(pat))`. -/
def replaceViaSplit (pat rep s : List Char) : List Char := joinWith rep (splitOnL pat s)

/-- Modelled from the amended claim C3's words: the normalizer with `.md` and
`-index` removed at every occurrence (split on the pattern and rejoin),
separators and underscores dashed, leading dot/slash run stripped and
leading/trailing dashes stripped, in the code's order. -/
def specNormalizeAll (p : List Char) : List Char :=
  replaceViaSplit "-index".toList []
    (stripDashes
      ((replaceViaSplit "_".toList "-".toList
          (replaceViaSplit "/".toList "-".toList
            (replaceViaSplit ".md".toList [] p))).dropWhile dotSlash))

/-- External-link test of `replace_link` (line 86):
`link_path.startswith(('http://', 'https://', '#'))`. -/
def isExternal (t : List Char) : Bool :=
  startsWithL "http://".toList t || startsWithL "https://".toList t ||
    startsWithL "#".toList t

/-- One attempt of the link regex `\[([^\]]+)\]\(([^)]+)\)` at the current
position: label is the maximal non-`]` run (must be non-empty), then `](`,
then the maximal non-`)` run (must be non-empty), then `)`.  Returns
`(label, target, rest-after-match)`. -/
def matchLink (s : List Char) : Option (List Char × List Char × List Char) :=
  match s with
  | '[' :: s1 =>
    match s1.dropWhile (fun c => !(c = ']')) with
    | ']' :: '(' :: s2 =>
      if (s1.takeWhile (fun c => !(c = ']'))).isEmpty then none
      else
        match s2.dropWhile (fun c => !(c = ')')) with
        | ')' :: rest =>
          if (s2.takeWhile (fun c => !(c = ')'))).isEmpty then none
          else some (s1.takeWhile (fun c => !(c = ']')), s2.takeWhile (fun c => !(c = ')')), rest)
        | _ => none
    | _ => none
  | _ => none

/-- The text `[l](t)`. -/
def linkSpan (l t : List Char) : List Char :=
  '[' :: (l ++ (']' :: '(' :: (t ++ [')'])))

/-- Fueled scanner for `re.sub` with the link pattern and `replace_link`
(lines 77-100).  `prev` is the character of the original text immediately
before the current position (`text[match.start() - 1]`); a match preceded by
`!` or with an external target is kept verbatim, otherwise its target is
normalized.  Scanning resumes after the match (whose last character is `)`).
Fuel is the length of the input. -/
def rewriteGo : Nat → Option Char → List Char → List Char
  | _, _, [] => []
  | 0, _, s => s
  | fuel + 1, prev, c :: cs =>
    match matchLink (c :: cs) with
    | some (l, t, rest) =>
      (if prev = some '!' then linkSpan l t
       else if isExternal t then linkSpan l t
       else linkSpan l (normalizeLink t)) ++ rewriteGo fuel (some ')') rest
    | none => c :: rewriteGo fuel (some c) cs

/-- The link-rewriting scan started with a given preceding character. -/
def rewriteScan (prev : Option Char) (s : List Char) : List Char :=
  rewriteGo s.length prev s

/-- `convert_mkdocs_to_wiki_link` (lines 67-100): the scan over the whole
document; at position 0 there is no preceding character. -/
def convert_mkdocs_to_wiki_link (s : List Char) : List Char := rewriteScan none s

/-- External-image test of `replace_image` (line 114). -/
def isExternalImage (t : List Char) : Bool :=
  startsWithL "http://".toList t || startsWithL "https://".toList t

/-- One attempt of the image regex `!\[([^\]]*)\]\(([^)]+)\)` at the current
position (alt text may be empty). -/
def matchImage (s : List Char) : Option (List Char × List Char × List Char) :=
  match s with
  | '!' :: '[' :: s1 =>
    match s1.dropWhile (fun c => !(c = ']')) with
    | ']' :: '(' :: s2 =>
      match s2.dropWhile (fun c => !(c = ')')) with
      | ')' :: rest =>
        if (s2.takeWhile (fun c => !(c = ')'))).isEmpty then none
        else some (s1.takeWhile (fun c => !(c = ']')), s2.takeWhile (fun c => !(c = ')')), rest)
      | _ => none
    | _ => none
  | _ => none

/-- The text `![alt](t)`. -/
def imageSpan (alt t : List Char) : List Char :=
  '!' :: '[' :: (alt ++ (']' :: '(' :: (t ++ [')'])))

/-- Split a path string on `/` (segments of a POSIX relative path). -/
def splitSlash : List Char → List (List Char)
  | [] => [[]]
  | c :: cs =>
    if c = '/' then [] :: splitSlash cs
    else
      match splitSlash cs with
      | [] => [[c]]
      | h :: t => (c :: h) :: t

/-- One step of lexical path resolution (`Path.resolve`): `.` and empty
segments are skipped, `..` removes the last stack segment (the parent of the
root is the root), and any other segment is pushed. -/
def stepSeg (stack : List (List Char)) (seg : List Char) : List (List Char) :=
  if seg = [] then stack
  else if seg = ".".toList then stack
  else if seg = "..".toList then stack.dropLast
  else stack ++ [seg]

/-- Lexical resolution of a segment sequence against a starting stack. -/
def resolveSegs (stack : List (List Char)) (segs : List (List Char)) : List (List Char) :=
  segs.foldl stepSeg stack

/-- `Path.relative_to`: strip the root's segments, failing (`ValueError`)
when the path does not lie under the root. -/
def dropRoot : List (List Char) → List (List Char) → Option (List (List Char))
  | [], p => some p
  | _ :: _, [] => none
  | r :: rs, q :: qs => if q = r then dropRoot rs qs else none

/-- Lines 156-167: resolve `source_file.parent / image_path` against the
working directory `cwd` (the repository root) and express it relative to
`cwd`; `none` models the `ValueError` of `relative_to`.  The final
`replace('\\', '/')` of line 167 is kept. -/
def imageRel (cwd : List (List Char)) (src t : List Char) : Option (List Char) :=
  match
    dropRoot cwd
      (if startsWithL "/".toList t then resolveSegs [] (splitSlash t)
       else resolveSegs cwd ((splitSlash src).dropLast ++ splitSlash t)) with
  | none => none
  | some rel => some (replaceAll "\\".toList "/".toList (joinWith "/".toList rel))

/-- Line 170: `f"https://raw.githubusercontent.com/{github_repo}/main/{image_rel_path_str}"`. -/
def rawUrl (repo rel : List Char) : List Char :=
  "https://raw.githubusercontent.com/".toList ++ repo ++ "/main/".toList ++ rel

/-- `replace_image` (lines 109-176).  `repo` is the outcome of repository
identity resolution (environment override or git remote parsing); `none`
models the branches that print a warning and return `match.group(0)`. -/
def replace_image (repo : Option (List Char)) (cwd : List (List Char))
    (src alt t : List Char) : List Char :=
  if isExternalImage t then imageSpan alt t
  else
    match repo with
    | none => imageSpan alt t
    | some r =>
      match imageRel cwd src t with
      | none => imageSpan alt t
      | some rel => imageSpan alt (rawUrl r rel)

/-- Whether `replace_image` prints a warning diagnostic for this reference:
the identity-unresolved branches (lines 150-154) and the path-resolution
failure branch (lines 171-174) do; the external and success branches do not. -/
def replace_image_warns (repo : Option (List Char)) (cwd : List (List Char))
    (src t : List Char) : Bool :=
  if isExternalImage t then false
  else
    match repo with
    | none => true
    | some _ => (imageRel cwd src t).isNone

/-- Fueled scanner for `re.sub` with the image pattern (line 178). -/
def convertImagesGo (repo : Option (List Char)) (cwd : List (List Char)) (src : List Char) :
    Nat → List Char → List Char
  | _, [] => []
  | 0, s => s
  | fuel + 1, c :: cs =>
    match matchImage (c :: cs) with
    | some (alt, t, rest) =>
      replace_image repo cwd src alt t ++ convertImagesGo repo cwd src fuel rest
    | none => c :: convertImagesGo repo cwd src fuel cs

/-- The image-path scan started at an arbitrary suffix of the document. -/
def convertImagesScan (repo : Option (List Char)) (cwd : List (List Char))
    (src s : List Char) : List Char :=
  convertImagesGo repo cwd src s.length s

/-- `convert_image_paths` (lines 102-178). -/
def convert_image_paths (repo : Option (List Char)) (cwd : List (List Char))
    (src s : List Char) : List Char :=
  convertImagesScan repo cwd src s

/-- Python's `\s` class (ASCII): space, tab, newline, carriage return,
vertical tab, form feed. -/
def isWS (c : Char) : Bool :=
  c = ' ' || c = '\t' || c = '\n' || c = '\r' || c = '\x0b' || c = '\x0c'

/-- Index of the last newline in a character list, if any. -/
def lastNL : List Char → Option Nat
  | [] => none
  | c :: cs =>
    match lastNL cs with
    | some k => some (k + 1)
    | none => if c = '\n' then some 0 else none

/-- Match of the closing part `\n---\s*\n` of the front-matter regex at the
start of `s`: greedy `\s*` with backtracking consumes up to the last newline
of the maximal whitespace run.  Returns the matched length. -/
def closeLen (s : List Char) : Option Nat :=
  match s with
  | '\n' :: '-' :: '-' :: '-' :: r =>
    match lastNL (r.takeWhile isWS) with
    | some k => some (4 + k + 1)
    | none => none
  | _ => none

/-- Lazy search (`.*?`) for the closing delimiter: the least offset `j` at
which `\n---\s*\n` matches, with the matched length. -/
def findClose : List Char → Option (Nat × Nat)
  | [] => none
  | c :: cs =>
    match closeLen (c :: cs) with
    | some m => some (0, m)
    | none =>
      match findClose cs with
      | some (j, m) => some (j + 1, m)
      | none => none

/-- Ascending indices of newlines in a character list. -/
def nlIdxAsc : List Char → List Nat
  | [] => []
  | c :: cs => (if c = '\n' then [0] else []) ++ (nlIdxAsc cs).map (· + 1)

/-- Backtracking over the opening `\s*\n` split positions (tried greedily,
longest first): for each candidate newline position `k` the body starts at
`k + 1`; the first candidate whose body contains the closing delimiter wins,
and the text after the whole match is returned. -/
def tryOpens (rest : List Char) : List Nat → Option (List Char)
  | [] => none
  | k :: ks =>
    match findClose (rest.drop (k + 1)) with
    | some (j, m) => some (((rest.drop (k + 1))).drop (j + m))
    | none => tryOpens rest ks

/-- `re.sub(r'^---\s*\n.*?\n---\s*\n', '', content, flags=re.DOTALL)`
(lines 188 and 299): remove a leading front-matter block when the anchored
pattern matches, otherwise return the text unchanged. -/
def stripFrontMatter (s : List Char) : List Char :=
  if startsWithL "---".toList s then
    match tryOpens (s.drop 3) ((nlIdxAsc ((s.drop 3).takeWhile isWS)).reverse) with
    | some r => r
    | none => s
  else s

/-- `process_markdown_file` transformation (lines 187-194): strip front
matter, rewrite links, then resolve image paths. -/
def process_markdown_content (repo : Option (List Char)) (cwd : List (List Char))
    (src content : List Char) : List Char :=
  convert_image_paths repo cwd src (convert_mkdocs_to_wiki_link (stripFrontMatter content))

/-- `create_home_page` transformation of the chosen home content (line 325):
only link rewriting is applied. -/
def create_home_content (chosen : List Char) : List Char :=
  convert_mkdocs_to_wiki_link chosen

/-- One sidebar list line `f"- [{title}]({wiki_name})\n"` (line 277). -/
def sidebarLine (title name : List Char) : List Char :=
  "- [".toList ++ title ++ "](".toList ++ name ++ ")\n".toList

/-- The loop of `create_sidebar` (lines 275-277): one line per entry whose
name and title are both non-empty (Python truthiness of the strings). -/
def sidebarList : List (List Char × List Char) → List Char
  | [] => []
  | (title, name) :: rest =>
    (if !name.isEmpty && !title.isEmpty then sidebarLine title name else []) ++ sidebarList rest

/-- The sidebar heading (lines 272-273; the `#` line contains the four
characters U+00F0 U+0178 U+201C U+0161 found in the source file). -/
def sidebarHeader (siteName : List Char) : List Char :=
  "# ðŸ“š ".toList ++ siteName ++ " Wiki\n\n".toList ++
    "## Table of Contents\n\n".toList

/-- The full `sidebar_content` built by `create_sidebar` (lines 272-277). -/
def create_sidebar_content (siteName : List Char)
    (pages : List (List Char × List Char)) : List Char :=
  sidebarHeader siteName ++ sidebarList pages

/-- Concatenation of a list of lines. -/
def joinAll : List (List Char) → List Char
  | [] => []
  | x :: rest => x ++ joinAll rest

/-! ## Basic lemmas about the string utilities -/

theorem occurs_cons_false {pat : List Char} {c : Char} {cs : List Char}
    (h : occurs pat (c :: cs) = false) :
    startsWithL pat (c :: cs) = false ∧ occurs pat cs = false := by
  simpa [occurs] using h

theorem startsWithL_false_of_occurs_false {pat s : List Char}
    (h : occurs pat s = false) : startsWithL pat s = false := by
  cases s with
  | nil => simpa [occurs] using h
  | cons c cs => exact (occurs_cons_false h).1

theorem replaceAllGo_id (pat rep : List Char) :
    ∀ (fuel : Nat) (s : List Char), s.length ≤ fuel → occurs pat s = false →
      replaceAllGo pat rep fuel s = s := by
  intro fuel
  induction fuel with
  | zero =>
    intro s hs _
    have : s = [] := List.length_eq_zero.mp (Nat.le_zero.mp hs)
    subst this; rfl
  | succ n ih =>
    intro s hs hocc
    cases s with
    | nil => rfl
    | cons c cs =>
      obtain ⟨h1, h2⟩ := occurs_cons_false hocc
      have hlen : cs.length ≤ n := Nat.le_of_succ_le_succ (by simpa using hs)
      simp [replaceAllGo, h1, ih cs hlen h2]

theorem replaceAll_id (pat rep s : List Char) (h : occurs pat s = false) :
    replaceAll pat rep s = s := by
  cases pat with
  | nil => rfl
  | cons p ps => exact replaceAllGo_id _ _ _ _ le_rfl h

theorem head_ne_of_startsWithL_single_false {a c : Char} {cs : List Char}
    (h : startsWithL [a] (c :: cs) = false) : ¬ c = a := by
  intro hca
  subst hca
  simp [startsWithL] at h

theorem dropWhile_dash_id {s : List Char}
    (h : startsWithL "-".toList s = false) : s.dropWhile (fun c => c = '-') = s := by
  cases s with
  | nil => rfl
  | cons c cs =>
    have hc : ¬ c = '-' := head_ne_of_startsWithL_single_false (by simpa using h)
    simp [List.dropWhile_cons, hc]

theorem stripDashes_id {s : List Char}
    (h1 : startsWithL "-".toList s = false)
    (h2 : startsWithL "-".toList s.reverse = false) :
    stripDashes s = s := by
  unfold stripDashes
  rw [dropWhile_dash_id h1, dropWhile_dash_id h2, List.reverse_reverse]

theorem dropWhile_dotSlash_id {s : List Char}
    (h1 : startsWithL ".".toList s = false)
    (h2 : startsWithL "/".toList s = false) :
    s.dropWhile dotSlash = s := by
  cases s with
  | nil => rfl
  | cons c cs =>
    have hd : ¬ c = '.' := head_ne_of_startsWithL_single_false (by simpa using h1)
    have hs : ¬ c = '/' := head_ne_of_startsWithL_single_false (by simpa using h2)
    simp [List.dropWhile_cons, dotSlash, hd, hs]

/-- Any string fixed under every stage of the normalizer is a fixed point of
`normalizeLink`. -/
theorem normalizeLink_fixed {u : List Char}
    (hmd : occurs ".md".toList u = false)
    (hidx : occurs "-index".toList u = false)
    (hsl : occurs "/".toList u = false)
    (hus : occurs "_".toList u = false)
    (hdot : startsWithL ".".toList u = false)
    (hd1 : startsWithL "-".toList u = false)
    (hd2 : startsWithL "-".toList u.reverse = false) :
    normalizeLink u = u := by
  unfold normalizeLink navPre
  rw [replaceAll_id _ _ _ hmd, replaceAll_id _ _ _ hsl, replaceAll_id _ _ _ hus,
    dropWhile_dotSlash_id hdot (startsWithL_false_of_occurs_false hsl),
    stripDashes_id hd1 hd2, replaceAll_id _ _ _ hidx]

/-! ## Split-and-rejoin formulation of `replaceAll` -/

theorem splitOnGo_ne_nil (pat : List Char) :
    ∀ (fuel : Nat) (s : List Char), splitOnGo pat fuel s ≠ [] := by
  intro fuel
  induction fuel with
  | zero => intro s; cases s <;> simp [splitOnGo]
  | succ n ih =>
    intro s
    cases s with
    | nil => simp [splitOnGo]
    | cons c cs =>
      by_cases h : startsWithL pat (c :: cs) = true
      · simp [splitOnGo, h]
      · have h' : startsWithL pat (c :: cs) = false := by simpa using h
        simp only [splitOnGo, h']
        cases hcs : splitOnGo pat n cs with
        | nil => simp
        | cons a as => simp

theorem joinWith_cons_head (rep : List Char) (c : Char) (h : List Char)
    (tl : List (List Char)) :
    joinWith rep ((c :: h) :: tl) = c :: joinWith rep (h :: tl) := by
  cases tl with
  | nil => rfl
  | cons y t => simp [joinWith]

theorem joinWith_split_eq_replaceGo (pat rep : List Char) :
    ∀ (fuel : Nat) (s : List Char),
      joinWith rep (splitOnGo pat fuel s) = replaceAllGo pat rep fuel s := by
  intro fuel
  induction fuel with
  | zero =>
    intro s
    cases s <;> simp [splitOnGo, replaceAllGo, joinWith]
  | succ n ih =>
    intro s
    cases s with
    | nil => simp [splitOnGo, replaceAllGo, joinWith]
    | cons c cs =>
      by_cases h : startsWithL pat (c :: cs) = true
      · have hne := splitOnGo_ne_nil pat n ((c :: cs).drop pat.length)
        cases hsp : splitOnGo pat n ((c :: cs).drop pat.length) with
        | nil => exact absurd hsp hne
        | cons a as =>
          simp only [splitOnGo, replaceAllGo, h, if_true, hsp]
          have : joinWith rep ([] :: a :: as) = rep ++ joinWith rep (a :: as) := by
            simp [joinWith]
          rw [this, ← hsp, ih]
      · have h' : startsWithL pat (c :: cs) = false := by simpa using h
        have hne := splitOnGo_ne_nil pat n cs
        cases hcs : splitOnGo pat n cs with
        | nil => exact absurd hcs hne
        | cons a as =>
          simp only [splitOnGo, replaceAllGo, h', if_false, hcs, Bool.false_eq_true]
          rw [joinWith_cons_head, ← hcs, ih]

theorem replaceViaSplit_eq (pat rep s : List Char) :
    replaceViaSplit pat rep s = replaceAll pat rep s := by
  cases pat with
  | nil => rfl
  | cons p ps =>
    unfold replaceViaSplit replaceAll splitOnL
    exact joinWith_split_eq_replaceGo _ _ _ _

/-! ## Scanner lemmas -/

theorem takeWhile_append_stop (p : Char → Bool) :
    ∀ (l : List Char) (x : Char) (r : List Char),
      (∀ c ∈ l, p c = true) → p x = false → ((l ++ x :: r).takeWhile p) = l := by
  intro l
  induction l with
  | nil => intro x r _ hx; simp [List.takeWhile_cons, hx]
  | cons a as ih =>
    intro x r hl hx
    have ha : p a = true := hl a (by simp)
    simp only [List.cons_append, List.takeWhile_cons, ha, if_true]
    rw [ih x r (fun c hc => hl c (by simp [hc])) hx]

theorem dropWhile_append_stop (p : Char → Bool) :
    ∀ (l : List Char) (x : Char) (r : List Char),
      (∀ c ∈ l, p c = true) → p x = false → ((l ++ x :: r).dropWhile p) = x :: r := by
  intro l
  induction l with
  | nil => intro x r _ hx; simp [List.dropWhile_cons, hx]
  | cons a as ih =>
    intro x r hl hx
    have ha : p a = true := hl a (by simp)
    simp only [List.cons_append, List.dropWhile_cons, ha, if_true]
    exact ih x r (fun c hc => hl c (by simp [hc])) hx

theorem matchLink_span (l t rest : List Char)
    (hl : l ≠ []) (hlc : ∀ c ∈ l, ¬ c = ']') (ht : t ≠ []) (htc : ∀ c ∈ t, ¬ c = ')') :
    matchLink (linkSpan l t ++ rest) = some (l, t, rest) := by
  have hL : ∀ c ∈ l, (fun c => !(c = ']')) c = true := by
    intro c hc; simpa using hlc c hc
  have hT : ∀ c ∈ t, (fun c => !(c = ')')) c = true := by
    intro c hc; simpa using htc c hc
  have hxL : (fun c => !(c = ']')) ']' = false := by simp
  have hxT : (fun c => !(c = ')')) ')' = false := by simp
  have hshape : linkSpan l t ++ rest
      = '[' :: (l ++ ']' :: '(' :: (t ++ ')' :: rest)) := by
    simp [linkSpan]
  rw [hshape]
  have hdropL := dropWhile_append_stop _ l ']' ('(' :: (t ++ ')' :: rest)) hL hxL
  have htakeL := takeWhile_append_stop _ l ']' ('(' :: (t ++ ')' :: rest)) hL hxL
  have hdropT := dropWhile_append_stop _ t ')' rest hT hxT
  have htakeT := takeWhile_append_stop _ t ')' rest hT hxT
  simp only [matchLink, hdropL, htakeL, hdropT, htakeT]
  simp [List.isEmpty_iff, hl, ht]

theorem matchImage_span (alt t rest : List Char)
    (halt : ∀ c ∈ alt, ¬ c = ']') (ht : t ≠ []) (htc : ∀ c ∈ t, ¬ c = ')') :
    matchImage (imageSpan alt t ++ rest) = some (alt, t, rest) := by
  have hA : ∀ c ∈ alt, (fun c => !(c = ']')) c = true := by
    intro c hc; simpa using halt c hc
  have hT : ∀ c ∈ t, (fun c => !(c = ')')) c = true := by
    intro c hc; simpa using htc c hc
  have hxA : (fun c => !(c = ']')) ']' = false := by simp
  have hxT : (fun c => !(c = ')')) ')' = false := by simp
  have hshape : imageSpan alt t ++ rest
      = '!' :: '[' :: (alt ++ ']' :: '(' :: (t ++ ')' :: rest)) := by
    simp [imageSpan]
  rw [hshape]
  have hdropA := dropWhile_append_stop _ alt ']' ('(' :: (t ++ ')' :: rest)) hA hxA
  have htakeA := takeWhile_append_stop _ alt ']' ('(' :: (t ++ ')' :: rest)) hA hxA
  have hdropT := dropWhile_append_stop _ t ')' rest hT hxT
  have htakeT := takeWhile_append_stop _ t ')' rest hT hxT
  simp only [matchImage, hdropA, htakeA, hdropT, htakeT]
  simp [List.isEmpty_iff, ht]

theorem dropWhile_length_le (p : Char → Bool) :
    ∀ s : List Char, (s.dropWhile p).length ≤ s.length := by
  intro s
  induction s with
  | nil => simp
  | cons c cs ih =>
    by_cases h : p c = true
    · simp only [List.dropWhile_cons, h, if_true]
      exact Nat.le_succ_of_le ih
    · have h' : p c = false := by simpa using h
      simp [List.dropWhile_cons, h']

theorem matchLink_rest_length {s l t rest : List Char}
    (h : matchLink s = some (l, t, rest)) : rest.length < s.length := by
  unfold matchLink at h
  split at h
  next s1 =>
    split at h
    next s2 heq1 =>
      split at h
      next => exact absurd h (by simp)
      next =>
        split at h
        next rest0 heq2 =>
          split at h
          next => exact absurd h (by simp)
          next =>
            obtain ⟨h1, h2, h3⟩ := by
              simpa using h
            subst h3
            have b1 : (']' :: '(' :: s2).length ≤ s1.length := by
              rw [← heq1]; exact dropWhile_length_le _ _
            have b2 : (')' :: rest0).length ≤ s2.length := by
              rw [← heq2]; exact dropWhile_length_le _ _
            simp only [List.length_cons] at b1 b2 ⊢
            omega
        next => exact absurd h (by simp)
    next => exact absurd h (by simp)
  next => exact absurd h (by simp)

theorem matchImage_rest_length {s alt t rest : List Char}
    (h : matchImage s = some (alt, t, rest)) : rest.length < s.length := by
  unfold matchImage at h
  split at h
  next s1 =>
    split at h
    next s2 heq1 =>
      split at h
      next rest0 heq2 =>
        split at h
        next => exact absurd h (by simp)
        next =>
          obtain ⟨h1, h2, h3⟩ := by
            simpa using h
          subst h3
          have b1 : (']' :: '(' :: s2).length ≤ s1.length := by
            rw [← heq1]; exact dropWhile_length_le _ _
          have b2 : (')' :: rest0).length ≤ s2.length := by
            rw [← heq2]; exact dropWhile_length_le _ _
          simp only [List.length_cons] at b1 b2 ⊢
          omega
      next => exact absurd h (by simp)
    next => exact absurd h (by simp)
  next => exact absurd h (by simp)

theorem rewriteGo_fuel :
    ∀ (fuel : Nat) (prev : Option Char) (s : List Char), s.length ≤ fuel →
      rewriteGo fuel prev s = rewriteScan prev s := by
  intro fuel
  induction fuel using Nat.strong_induction_on with
  | _ fuel ih =>
    intro prev s hs
    cases s with
    | nil => cases fuel <;> rfl
    | cons c cs =>
      cases fuel with
      | zero => simp at hs
      | succ f =>
        have hflt : f < f + 1 := Nat.lt_succ_self f
        have hclt : cs.length < f + 1 := by
          have := hs; simp only [List.length_cons] at this; omega
        rw [show rewriteScan prev (c :: cs) = rewriteGo (cs.length + 1) prev (c :: cs) by
          simp [rewriteScan]]
        cases hm : matchLink (c :: cs) with
        | some v =>
          obtain ⟨l, t, rest⟩ := v
          have hrest : rest.length < (c :: cs).length := matchLink_rest_length hm
          simp only [List.length_cons] at hrest
          have h1 : rewriteGo f (some ')') rest = rewriteScan (some ')') rest :=
            ih f hflt _ _ (by simp only [List.length_cons] at hs; omega)
          have h2 : rewriteGo cs.length (some ')') rest = rewriteScan (some ')') rest :=
            ih cs.length hclt _ _ (by omega)
          simp [rewriteGo, hm, h1, h2]
        | none =>
          have h1 : rewriteGo f (some c) cs = rewriteScan (some c) cs :=
            ih f hflt _ _ (by simp only [List.length_cons] at hs; omega)
          have h2 : rewriteGo cs.length (some c) cs = rewriteScan (some c) cs :=
            ih cs.length hclt _ _ le_rfl
          simp [rewriteGo, hm, h1, h2]

theorem convertImagesGo_fuel (repo : Option (List Char)) (cwd : List (List Char))
    (src : List Char) :
    ∀ (fuel : Nat) (s : List Char), s.length ≤ fuel →
      convertImagesGo repo cwd src fuel s = convertImagesScan repo cwd src s := by
  intro fuel
  induction fuel using Nat.strong_induction_on with
  | _ fuel ih =>
    intro s hs
    cases s with
    | nil => cases fuel <;> rfl
    | cons c cs =>
      cases fuel with
      | zero => simp at hs
      | succ f =>
        have hflt : f < f + 1 := Nat.lt_succ_self f
        have hclt : cs.length < f + 1 := by
          have := hs; simp only [List.length_cons] at this; omega
        rw [show convertImagesScan repo cwd src (c :: cs)
            = convertImagesGo repo cwd src (cs.length + 1) (c :: cs) by
          simp [convertImagesScan]]
        cases hm : matchImage (c :: cs) with
        | some v =>
          obtain ⟨alt, t, rest⟩ := v
          have hrest : rest.length < (c :: cs).length := matchImage_rest_length hm
          simp only [List.length_cons] at hrest
          have h1 : convertImagesGo repo cwd src f rest = convertImagesScan repo cwd src rest :=
            ih f hflt _ (by simp only [List.length_cons] at hs; omega)
          have h2 : convertImagesGo repo cwd src cs.length rest
              = convertImagesScan repo cwd src rest :=
            ih cs.length hclt _ (by omega)
          simp [convertImagesGo, hm, h1, h2]
        | none =>
          have h1 : convertImagesGo repo cwd src f cs = convertImagesScan repo cwd src cs :=
            ih f hflt _ (by simp only [List.length_cons] at hs; omega)
          have h2 : convertImagesGo repo cwd src cs.length cs
              = convertImagesScan repo cwd src cs :=
            ih cs.length hclt _ le_rfl
          simp [convertImagesGo, hm, h1, h2]

theorem rewriteScan_cons_match {prev : Option Char} {c : Char} {cs l t rest : List Char}
    (hm : matchLink (c :: cs) = some (l, t, rest)) (hrest : rest.length ≤ cs.length) :
    rewriteScan prev (c :: cs) =
      (if prev = some '!' then linkSpan l t
       else if isExternal t then linkSpan l t
       else linkSpan l (normalizeLink t)) ++ rewriteScan (some ')') rest := by
  simp only [rewriteScan, List.length_cons, rewriteGo, hm]
  rw [rewriteGo_fuel _ _ _ hrest]
  rfl

theorem rewriteScan_cons_none {prev : Option Char} {c : Char} {cs : List Char}
    (hm : matchLink (c :: cs) = none) :
    rewriteScan prev (c :: cs) = c :: rewriteScan (some c) cs := by
  simp only [rewriteScan, List.length_cons, rewriteGo, hm]

/-- When the scan reaches a well-formed link span, it emits the span (kept or
with normalized target, by the preceding character and the external test) and
resumes after the closing parenthesis. -/
theorem rewriteScan_step (prev : Option Char) (l t rest : List Char)
    (hl : l ≠ []) (hlc : ∀ c ∈ l, ¬ c = ']') (ht : t ≠ []) (htc : ∀ c ∈ t, ¬ c = ')') :
    rewriteScan prev (linkSpan l t ++ rest) =
      (if prev = some '!' then linkSpan l t
       else if isExternal t then linkSpan l t
       else linkSpan l (normalizeLink t)) ++ rewriteScan (some ')') rest := by
  have hm := matchLink_span l t rest hl hlc ht htc
  have hshape : linkSpan l t ++ rest
      = '[' :: ((l ++ (']' :: '(' :: (t ++ [')']))) ++ rest) := by
    simp [linkSpan]
  rw [hshape] at hm ⊢
  exact rewriteScan_cons_match hm (by simp only [List.length_append, List.length_cons]; omega)

/-- When the scan reaches `!` followed by a well-formed link span, the span is
an image reference: it is emitted verbatim and scanning resumes after it. -/
theorem rewriteScan_image (prev : Option Char) (l t rest : List Char)
    (hl : l ≠ []) (hlc : ∀ c ∈ l, ¬ c = ']') (ht : t ≠ []) (htc : ∀ c ∈ t, ¬ c = ')') :
    rewriteScan prev ('!' :: (linkSpan l t ++ rest)) =
      '!' :: (linkSpan l t ++ rewriteScan (some ')') rest) := by
  have hnone : matchLink ('!' :: (linkSpan l t ++ rest)) = none := rfl
  rw [rewriteScan_cons_none hnone, rewriteScan_step _ _ _ _ hl hlc ht htc, if_pos rfl]

theorem convertImagesScan_cons_match {repo : Option (List Char)} {cwd : List (List Char)}
    {src : List Char} {c : Char} {cs alt t rest : List Char}
    (hm : matchImage (c :: cs) = some (alt, t, rest)) (hrest : rest.length ≤ cs.length) :
    convertImagesScan repo cwd src (c :: cs) =
      replace_image repo cwd src alt t ++ convertImagesScan repo cwd src rest := by
  simp only [convertImagesScan, List.length_cons, convertImagesGo, hm]
  rw [convertImagesGo_fuel _ _ _ _ _ hrest]
  rfl

/-- When the image scan reaches a well-formed image span, it emits the result
of `replace_image` and resumes after the span. -/
theorem convertImagesScan_step (repo : Option (List Char)) (cwd : List (List Char))
    (src alt t rest : List Char)
    (halt : ∀ c ∈ alt, ¬ c = ']') (ht : t ≠ []) (htc : ∀ c ∈ t, ¬ c = ')') :
    convertImagesScan repo cwd src (imageSpan alt t ++ rest) =
      replace_image repo cwd src alt t ++ convertImagesScan repo cwd src rest := by
  have hm := matchImage_span alt t rest halt ht htc
  have hshape : imageSpan alt t ++ rest
      = '!' :: (('[' :: (alt ++ (']' :: '(' :: (t ++ [')'])))) ++ rest) := by
    simp [imageSpan]
  rw [hshape] at hm ⊢
  exact convertImagesScan_cons_match hm
    (by simp only [List.length_append, List.length_cons]; omega)

/-! ## Front-matter, path-resolution and sidebar lemmas -/

theorem findClose_cons_none {c : Char} {cs : List Char}
    (h : findClose (c :: cs) = none) :
    closeLen (c :: cs) = none ∧ findClose cs = none := by
  cases hcl : closeLen (c :: cs) with
  | some m => simp [findClose, hcl] at h
  | none =>
    cases hfc : findClose cs with
    | some jm => simp [findClose, hcl, hfc] at h
    | none => exact ⟨rfl, rfl⟩

theorem findClose_drop_none {s : List Char} (h : findClose s = none) :
    ∀ n, findClose (s.drop n) = none := by
  induction s with
  | nil => intro n; simp [List.drop_nil]; rfl
  | cons c cs ih =>
    intro n
    cases n with
    | zero => exact h
    | succ m => exact ih (findClose_cons_none h).2 m

theorem tryOpens_none {rest : List Char} (h : findClose rest = none) :
    ∀ ks : List Nat, tryOpens rest ks = none := by
  intro ks
  induction ks with
  | nil => rfl
  | cons k ks ih => simp [tryOpens, findClose_drop_none h (k + 1), ih]

theorem dropRoot_append (root rest : List (List Char)) :
    dropRoot root (root ++ rest) = some rest := by
  induction root with
  | nil => rfl
  | cons r rs ih => simp [dropRoot, ih]

theorem stepSeg_push (st : List (List Char)) (seg : List Char)
    (h1 : ¬ seg = []) (h2 : ¬ seg = ".".toList) (h3 : ¬ seg = "..".toList) :
    stepSeg st seg = st ++ [seg] := by
  have h2' : ¬ seg = ['.'] := by simpa using h2
  have h3' : ¬ seg = ['.', '.'] := by simpa using h3
  simp [stepSeg, h1, h2', h3']

theorem stepSeg_up (st : List (List Char)) : stepSeg st "..".toList = st.dropLast := by
  unfold stepSeg
  rw [if_neg (by decide), if_neg (by decide), if_pos rfl]

theorem dropLast_append_single (l : List (List Char)) (a : List Char) :
    (l ++ [a]).dropLast = l := by
  simp

/-- Resolution of the one image reference of claim C6, for an arbitrary
repository-root working directory. -/
theorem imageRel_guide (cwd : List (List Char)) :
    imageRel cwd "docs/guide/page.md".toList "../assets/pic.png".toList
      = some "docs/assets/pic.png".toList := by
  have hsegs : (splitSlash "docs/guide/page.md".toList).dropLast
      ++ splitSlash "../assets/pic.png".toList
      = ["docs".toList, "guide".toList, "..".toList, "assets".toList, "pic.png".toList] := by
    decide
  have hres : resolveSegs cwd
      ["docs".toList, "guide".toList, "..".toList, "assets".toList, "pic.png".toList]
      = cwd ++ ["docs".toList, "assets".toList, "pic.png".toList] := by
    simp only [resolveSegs, List.foldl_cons, List.foldl_nil]
    rw [stepSeg_push cwd "docs".toList (by decide) (by decide) (by decide)]
    rw [stepSeg_push (cwd ++ ["docs".toList]) "guide".toList (by decide) (by decide) (by decide)]
    rw [stepSeg_up ((cwd ++ ["docs".toList]) ++ ["guide".toList])]
    rw [dropLast_append_single (cwd ++ ["docs".toList]) "guide".toList]
    rw [stepSeg_push (cwd ++ ["docs".toList]) "assets".toList (by decide) (by decide) (by decide)]
    rw [stepSeg_push ((cwd ++ ["docs".toList]) ++ ["assets".toList]) "pic.png".toList
      (by decide) (by decide) (by decide)]
    simp
  unfold imageRel
  rw [if_neg (by decide), hsegs, hres, dropRoot_append]
  decide

theorem sidebarList_eq (pages : List (List Char × List Char)) :
    sidebarList pages =
      joinAll ((pages.filter (fun p => !p.2.isEmpty && !p.1.isEmpty)).map
        (fun p => sidebarLine p.1 p.2)) := by
  induction pages with
  | nil => rfl
  | cons p ps ih =>
    obtain ⟨title, name⟩ := p
    by_cases h : (!name.isEmpty && !title.isEmpty) = true
    · simp [sidebarList, List.filter_cons, h, joinAll, ih]
    · have h' : (!name.isEmpty && !title.isEmpty) = false := by simpa using h
      simp [sidebarList, List.filter_cons, h', joinAll, ih]

/-! ## Claims -/

/-- C1, counterexample: the claim that the Navigation Walker identifier and
the fallback identifier always equal the Link Rewriter's normalized
identifier is false: the walker keeps the leading dash of
`_a.md` that the normalizer strips, and the fallback name of
`guide/index.md` keeps the `-index` that the normalizer removes. -/
theorem C1_counterexample :
    navName "_a.md".toList ≠ normalizeLink "_a.md".toList ∧
    fallbackName "guide/index.md".toList ≠ normalizeLink "guide/index.md".toList := by
  constructor <;> decide

/-- C1, amended: for every document path whose intermediate form (after
`.md` removal and separator/underscore dashing) does not begin with a dot or
slash and neither begins nor ends with a dash, the Navigation Walker's
identifier equals the Link Rewriter's normalized identifier; the fallback
identifier equals it exactly under the further condition that the
intermediate form contains no `-index` occurrence. -/
theorem C1_theorem (p : List Char)
    (h1 : startsWithL ".".toList (navPre p) = false)
    (h2 : startsWithL "/".toList (navPre p) = false)
    (h3 : startsWithL "-".toList (navPre p) = false)
    (h4 : startsWithL "-".toList (navPre p).reverse = false) :
    navName p = normalizeLink p ∧
      (occurs "-index".toList (navPre p) = false → fallbackName p = normalizeLink p) := by
  have hlink : normalizeLink p = replaceAll "-index".toList [] (navPre p) := by
    unfold normalizeLink
    rw [dropWhile_dotSlash_id h1 h2, stripDashes_id h3 h4]
  constructor
  · rw [hlink]; rfl
  · intro hocc
    rw [hlink, replaceAll_id _ _ _ hocc]; rfl

/-- Witness for C1 at the path `chapter/page.md`. -/
theorem C1_witness :
    (startsWithL ".".toList (navPre "chapter/page.md".toList) = false ∧
      startsWithL "/".toList (navPre "chapter/page.md".toList) = false ∧
      startsWithL "-".toList (navPre "chapter/page.md".toList) = false ∧
      startsWithL "-".toList (navPre "chapter/page.md".toList).reverse = false ∧
      occurs "-index".toList (navPre "chapter/page.md".toList) = false) ∧
    navName "chapter/page.md".toList = normalizeLink "chapter/page.md".toList ∧
    fallbackName "chapter/page.md".toList = normalizeLink "chapter/page.md".toList :=
  ⟨⟨by decide, by decide, by decide, by decide, by decide⟩,
    (C1_theorem _ (by decide) (by decide) (by decide) (by decide)).1,
    (C1_theorem _ (by decide) (by decide) (by decide)
      (by decide)).2 (by decide)⟩

/-- C2, counterexample: the Path Normalizer is not idempotent.  Removing all
occurrences of `.md` from `a.m.mdd` produces the fresh occurrence `a.md`,
which a second application reduces to `a`. -/
theorem C2_counterexample :
    normalizeLink (normalizeLink "a.m.mdd".toList) ≠ normalizeLink "a.m.mdd".toList := by
  decide

/-- C2, amended: the Path Normalizer is idempotent on every input whose
normalized form contains no occurrence of `.md`, `-index`, `/` or `_`, does
not begin with a dot, and neither begins nor ends with a dash (every stage of
a second application is then the identity). -/
theorem C2_theorem (s : List Char)
    (hmd : occurs ".md".toList (normalizeLink s) = false)
    (hidx : occurs "-index".toList (normalizeLink s) = false)
    (hsl : occurs "/".toList (normalizeLink s) = false)
    (hus : occurs "_".toList (normalizeLink s) = false)
    (hdot : startsWithL ".".toList (normalizeLink s) = false)
    (hd1 : startsWithL "-".toList (normalizeLink s) = false)
    (hd2 : startsWithL "-".toList (normalizeLink s).reverse = false) :
    normalizeLink (normalizeLink s) = normalizeLink s :=
  normalizeLink_fixed hmd hidx hsl hus hdot hd1 hd2

/-- Witness for C2 at the input `chapter/page.md`. -/
theorem C2_witness :
    (occurs ".md".toList (normalizeLink "chapter/page.md".toList) = false ∧
      occurs "-index".toList (normalizeLink "chapter/page.md".toList) = false ∧
      occurs "/".toList (normalizeLink "chapter/page.md".toList) = false ∧
      occurs "_".toList (normalizeLink "chapter/page.md".toList) = false ∧
      startsWithL ".".toList (normalizeLink "chapter/page.md".toList) = false ∧
      startsWithL "-".toList (normalizeLink "chapter/page.md".toList) = false ∧
      startsWithL "-".toList (normalizeLink "chapter/page.md".toList).reverse = false) ∧
    normalizeLink (normalizeLink "chapter/page.md".toList)
      = normalizeLink "chapter/page.md".toList :=
  ⟨⟨by decide, by decide, by decide, by decide, by decide, by decide, by decide⟩,
    C2_theorem _ (by decide) (by decide) (by decide) (by decide)
      (by decide) (by decide) (by decide)⟩

/-- C3, counterexample: the claim that `.md` is removed only as a trailing
suffix is false.  On `a.mdx` the code removes the interior `.md` and yields
`ax`, while the suffix-only normalizer described by the claim yields
`a.mdx`. -/
theorem C3_counterexample :
    normalizeLink "a.mdx".toList ≠ specNormalize "a.mdx".toList := by
  decide

/-- C3, amended: the normalizer removes every left-to-right non-overlapping
occurrence of `.md` (first step) and of `-index` (last step), not only
trailing ones - equivalently it splits on the pattern and rejoins - while
separators and underscores everywhere become dashes, a leading dot/slash run
is stripped, and leading/trailing dashes are stripped, in the code's order. -/
theorem C3_theorem (p : List Char) : normalizeLink p = specNormalizeAll p := by
  unfold normalizeLink navPre specNormalizeAll
  simp only [replaceViaSplit_eq]

/-- C4, counterexample: a fallback page is not recorded as an untitled entry:
for the file `a.md` the recorded title is the identifier `a` itself, and the
entry does contribute a sidebar line. -/
theorem C4_counterexample :
    (fallbackEntry "a.md".toList).1 ≠ [] ∧
    sidebarList [fallbackEntry "a.md".toList] = "- [a](a)\n".toList := by
  constructor <;> decide

/-- C4, amended: when no navigation structure is supplied, every page of the
fallback enumeration is recorded with its title equal to its identifier, and
the sidebar therefore contains exactly one list line per fallback page with a
non-empty identifier, in enumeration order (and none for an empty one). -/
theorem C4_theorem (paths : List (List Char)) :
    (∀ p ∈ paths, fallbackEntry p = (fallbackName p, fallbackName p)) ∧
    sidebarList (paths.map fallbackEntry) =
      joinAll (((paths.map fallbackName).filter (fun n => !n.isEmpty)).map
        (fun n => sidebarLine n n)) := by
  refine ⟨fun p _ => rfl, ?_⟩
  induction paths with
  | nil => rfl
  | cons p ps ih =>
    by_cases h : (!(fallbackName p).isEmpty) = true
    · simp only [List.map_cons, sidebarList, fallbackEntry, List.filter_cons, h, if_true,
        Bool.and_self, joinAll, ih]
    · have h' : (!(fallbackName p).isEmpty) = false := by simpa using h
      simp only [List.map_cons, sidebarList, fallbackEntry, List.filter_cons, h', if_false,
        Bool.and_self, joinAll, ih, Bool.false_eq_true, List.nil_append]

/-- C5: the Link Rewriter leaves untouched every matched link span whose
target begins with `http://`, `https://` or `#`, and every matched span
immediately preceded by `!` (image syntax): the span is emitted byte-for-byte
and scanning resumes after it, for any document tail.
(`convert_mkdocs_to_wiki_link` is `rewriteScan none`.) -/
theorem C5_theorem (prev : Option Char) (l t rest : List Char)
    (hl : l ≠ []) (hlc : ∀ c ∈ l, ¬ c = ']') (ht : t ≠ []) (htc : ∀ c ∈ t, ¬ c = ')')
    (hext : isExternal t = true ∨ prev = some '!') :
    rewriteScan prev (linkSpan l t ++ rest) = linkSpan l t ++ rewriteScan (some ')') rest := by
  rw [rewriteScan_step prev l t rest hl hlc ht htc]
  rcases hext with hE | hP
  · by_cases hp : prev = some '!'
    · rw [if_pos hp]
    · rw [if_neg hp, if_pos hE]
  · rw [if_pos hP]

/-- Witness for C5 at the external link `[L](https://e.com/x.md)`. -/
theorem C5_witness :
    ("L".toList ≠ [] ∧ (∀ c ∈ "L".toList, ¬ c = ']') ∧
      "https://e.com/x.md".toList ≠ [] ∧
      (∀ c ∈ "https://e.com/x.md".toList, ¬ c = ')') ∧
      isExternal "https://e.com/x.md".toList = true) ∧
    rewriteScan none (linkSpan "L".toList "https://e.com/x.md".toList ++ []) =
      linkSpan "L".toList "https://e.com/x.md".toList ++ rewriteScan (some ')') [] :=
  ⟨⟨by decide, by decide, by decide, by decide, by decide⟩,
    C5_theorem none "L".toList "https://e.com/x.md".toList []
      (by decide) (by decide) (by decide) (by decide) (Or.inl (by decide))⟩

/-- C6: with repository identity `alice/docs` and any repository-root working
directory, the image reference `![x](../assets/pic.png)` in the document at
`docs/guide/page.md` is rewritten to exactly
`![x](https://raw.githubusercontent.com/alice/docs/main/docs/assets/pic.png)`. -/
theorem C6_theorem (cwd : List (List Char)) :
    convert_image_paths (some "alice/docs".toList) cwd "docs/guide/page.md".toList
      "![x](../assets/pic.png)".toList
      = "![x](https://raw.githubusercontent.com/alice/docs/main/docs/assets/pic.png)".toList := by
  have hsh : "![x](../assets/pic.png)".toList
      = imageSpan "x".toList "../assets/pic.png".toList ++ [] := by decide
  show convertImagesScan (some "alice/docs".toList) cwd "docs/guide/page.md".toList
      "![x](../assets/pic.png)".toList = _
  rw [hsh, convertImagesScan_step _ _ _ _ _ _ (by decide) (by decide) (by decide)]
  rw [show convertImagesScan (some "alice/docs".toList) cwd "docs/guide/page.md".toList [] = []
      from rfl]
  unfold replace_image
  rw [if_neg (by decide), imageRel_guide]
  decide

/-- C7: for every well-formed image reference, when repository identity is
unresolved or the lexical path resolution fails (resolved path outside the
repository root), the Image Path Resolver emits the original reference
byte-for-byte, a warning diagnostic is emitted, and the scan of the rest of
the document continues (no error aborts processing). -/
theorem C7_theorem (repo : Option (List Char)) (cwd : List (List Char))
    (src alt t rest : List Char)
    (halt : ∀ c ∈ alt, ¬ c = ']') (ht : t ≠ []) (htc : ∀ c ∈ t, ¬ c = ')')
    (hnx : isExternalImage t = false)
    (hfail : repo = none ∨ imageRel cwd src t = none) :
    convert_image_paths repo cwd src (imageSpan alt t ++ rest) =
      imageSpan alt t ++ convert_image_paths repo cwd src rest ∧
    replace_image_warns repo cwd src t = true := by
  have hri : replace_image repo cwd src alt t = imageSpan alt t := by
    unfold replace_image
    rw [if_neg (by simp [hnx])]
    rcases hfail with h | h
    · rw [h]
    · cases repo with
      | none => rfl
      | some r => rw [h]
  constructor
  · show convertImagesScan repo cwd src (imageSpan alt t ++ rest) = _
    rw [convertImagesScan_step _ _ _ _ _ _ halt ht htc, hri]
    rfl
  · unfold replace_image_warns
    rw [if_neg (by simp [hnx])]
    rcases hfail with h | h
    · rw [h]
    · cases repo with
      | none => rfl
      | some r => simp [h]

/-- Witness for C7: unresolved identity on `![x](a.png)`, and an
outside-the-root resolution failure on `![x](../../x.png)`. -/
theorem C7_witness :
    ((∀ c ∈ "x".toList, ¬ c = ']') ∧ "a.png".toList ≠ [] ∧
      (∀ c ∈ "a.png".toList, ¬ c = ')') ∧ isExternalImage "a.png".toList = false ∧
      imageRel ["repo".toList] "docs/page.md".toList "../../x.png".toList = none) ∧
    (convert_image_paths none ["repo".toList] "docs/page.md".toList
        (imageSpan "x".toList "a.png".toList ++ []) =
      imageSpan "x".toList "a.png".toList ++
        convert_image_paths none ["repo".toList] "docs/page.md".toList [] ∧
      replace_image_warns none ["repo".toList] "docs/page.md".toList "a.png".toList = true) ∧
    (convert_image_paths (some "alice/docs".toList) ["repo".toList] "docs/page.md".toList
        (imageSpan "x".toList "../../x.png".toList ++ []) =
      imageSpan "x".toList "../../x.png".toList ++
        convert_image_paths (some "alice/docs".toList) ["repo".toList] "docs/page.md".toList [] ∧
      replace_image_warns (some "alice/docs".toList) ["repo".toList] "docs/page.md".toList
        "../../x.png".toList = true) :=
  ⟨⟨by decide, by decide, by decide, by decide, by decide⟩,
    C7_theorem none ["repo".toList] "docs/page.md".toList "x".toList "a.png".toList []
      (by decide) (by decide) (by decide) (by decide) (Or.inl rfl),
    C7_theorem (some "alice/docs".toList) ["repo".toList] "docs/page.md".toList
      "x".toList "../../x.png".toList []
      (by decide) (by decide) (by decide) (by decide) (Or.inr (by decide))⟩

/-- C8: the sidebar content is the heading followed by exactly one list line
per entry whose title and identifier are both non-empty, in entry order;
entries with an empty title or identifier contribute no line. -/
theorem C8_theorem (siteName : List Char) (pages : List (List Char × List Char)) :
    create_sidebar_content siteName pages =
      sidebarHeader siteName ++
        joinAll ((pages.filter (fun p => !p.2.isEmpty && !p.1.isEmpty)).map
          (fun p => sidebarLine p.1 p.2)) := by
  unfold create_sidebar_content
  rw [sidebarList_eq]

/-- C9: the Home page generator applies only link rewriting: its transform is
exactly the link scan, which emits every well-formed image span (`!` followed
by a link span, with a relative, non-`http(s)` path) byte-for-byte; the
Document Processor on the same text additionally resolves the image path, so
its output differs. -/
theorem C9_theorem :
    (∀ hc : List Char, create_home_content hc = rewriteScan none hc) ∧
    (∀ (prev : Option Char) (l t rest : List Char),
      l ≠ [] → (∀ c ∈ l, ¬ c = ']') → t ≠ [] → (∀ c ∈ t, ¬ c = ')') →
      startsWithL "http://".toList t = false → startsWithL "https://".toList t = false →
      rewriteScan prev ('!' :: (linkSpan l t ++ rest)) =
        '!' :: (linkSpan l t ++ rewriteScan (some ')') rest)) ∧
    process_markdown_content (some "alice/docs".toList) ["repo".toList] "docs/p.md".toList
        "![x](a.png)".toList
      ≠ create_home_content "![x](a.png)".toList := by
  refine ⟨fun hc => rfl,
    fun prev l t rest hl hlc ht htc _ _ => rewriteScan_image prev l t rest hl hlc ht htc, ?_⟩
  decide

/-- Witness for C9 at the image reference `![x](a.png)`. -/
theorem C9_witness :
    ("x".toList ≠ [] ∧ (∀ c ∈ "x".toList, ¬ c = ']') ∧ "a.png".toList ≠ [] ∧
      (∀ c ∈ "a.png".toList, ¬ c = ')') ∧
      startsWithL "http://".toList "a.png".toList = false ∧
      startsWithL "https://".toList "a.png".toList = false) ∧
    rewriteScan none ('!' :: (linkSpan "x".toList "a.png".toList ++ [])) =
      '!' :: (linkSpan "x".toList "a.png".toList ++ rewriteScan (some ')') []) :=
  ⟨⟨by decide, by decide, by decide, by decide, by decide, by decide⟩,
    C9_theorem.2.1 none "x".toList "a.png".toList []
      (by decide) (by decide) (by decide) (by decide) (by decide) (by decide)⟩

/-- C10: the front-matter stripping step removes nothing from a document that
does not start with three dashes, and removes nothing from a document that
starts with three dashes but contains no closing delimiter
(`\n---` followed by optional whitespace and a newline) after them. -/
theorem C10_theorem (s : List Char) :
    (startsWithL "---".toList s = false → stripFrontMatter s = s) ∧
    (startsWithL "---".toList s = true → findClose (s.drop 3) = none →
      stripFrontMatter s = s) := by
  constructor
  · intro h
    unfold stripFrontMatter
    rw [if_neg (by simp only [h]; exact Bool.false_ne_true)]
  · intro h hnc
    simp [stripFrontMatter, h, tryOpens_none hnc]

/-- Witness for C10 at `hello` (no leading dashes) and `---\nabc`
(no closing delimiter). -/
theorem C10_witness :
    (startsWithL "---".toList "hello".toList = false ∧
      stripFrontMatter "hello".toList = "hello".toList) ∧
    (startsWithL "---".toList "---\nabc".toList = true ∧
      findClose ("---\nabc".toList.drop 3) = none ∧
      stripFrontMatter "---\nabc".toList = "---\nabc".toList) :=
  ⟨⟨by decide, (C10_theorem _).1 (by decide)⟩,
    ⟨by decide, by decide, (C10_theorem _).2 (by decide) (by decide)⟩⟩

